import Mathlib

/-
Shallow embedding of src/tag-kglw_BL.py.

Strings are modelled as `List Char`.  Python's whitespace class (used by both
`str.strip()` and the regex class `\s`) is modelled by `isPySpace`; the regex
class `\d` and `int()` are modelled over ASCII decimal digits (non-ASCII
Unicode decimal digits behave analogously and never appear in the claims).
Regular-expression matching is embedded by direct recursive functions that
mirror the leftmost, greedy/lazy backtracking semantics of Python's `re`
module for the three patterns occurring in the source.
-/

namespace TagKglw

/-- Code points that Python treats as whitespace (str.isspace / regex class
backslash-s): ASCII whitespace, the C1 separators, NEL, and the Unicode
space separators. -/
def pySpaceNats : List Nat :=
  [9, 10, 11, 12, 13, 28, 29, 30, 31, 32, 133, 160, 5760,
   8192, 8193, 8194, 8195, 8196, 8197, 8198, 8199, 8200, 8201, 8202,
   8232, 8233, 8239, 8287, 12288]

/-- Whitespace test used for `str.strip()` and the regex whitespace class. -/
def isPySpace (c : Char) : Bool := pySpaceNats.contains c.toNat

/-- Decimal-digit test modelling the regex digit class (ASCII range). -/
def isPyDigit (c : Char) : Bool := 48 ≤ c.toNat && c.toNat ≤ 57

/-- Value of a digit string, modelling Python `int` on a digit-only string. -/
def digitsToNat (l : List Char) : Nat :=
  l.foldl (fun a c => a * 10 + (c.toNat - 48)) 0

/-- Leading-whitespace removal, the left half of Python `str.strip()`. -/
def stripLeft (l : List Char) : List Char := l.dropWhile isPySpace

/-- Trailing-whitespace removal, the right half of Python `str.strip()`. -/
def stripRight (l : List Char) : List Char := (l.reverse.dropWhile isPySpace).reverse

/-- Model of Python `str.strip()`: drop whitespace from both ends. -/
def pyStrip (l : List Char) : List Char := stripRight (stripLeft l)

/-- Model of the regex anchor `$` acting on the rest `v` of the input after a
greedy `.+`: it can discard a single final newline.  Returns `v` without a
trailing newline. -/
def chopNL (v : List Char) : List Char :=
  if v.getLast? = some '\n' then v.dropLast else v

/-- Model of `(.+)$` applied to the whole remaining input `v`: the group is
`v` minus an optional final newline, provided it is nonempty and contains no
newline (`.` does not match newlines). -/
def coreGroup (v : List Char) : Option (List Char) :=
  let g := chopNL v
  if g.isEmpty then none
  else if g.contains '\n' then none
  else some g

/-- Model of the regex tail `\s*(.+)$`: greedily consume whitespace into the
star (recursion first), backtracking to hand characters to `(.+)` when the
deeper attempt fails.  Returns the text captured by `(.+)`. -/
def mTail : List Char → Option (List Char)
  | [] => none
  | c :: cs =>
    if isPySpace c then
      match mTail cs with
      | some g => some g
      | none => coreGroup (c :: cs)
    else coreGroup (c :: cs)

/-- Model of the regex tail `\s+(.+)$` of the first pattern in
`parse_track_from_title`: at least one whitespace character, then `\s*(.+)$`. -/
def pat1Tail : List Char → Option (List Char)
  | [] => none
  | c :: cs => if isPySpace c then mTail cs else none

/-- Characters of the literal separator class `[-.\s]` that are not whitespace. -/
def isSepChar (c : Char) : Bool := c == '-' || c == '.'

/-- Model of the regex tail `\s*[-.\s]\s*(.+)$` of the second pattern in
`parse_track_from_title`.  Whitespace is greedily consumed into the first
star (recursion first); on failure the whitespace character itself serves as
the `[-.\s]` separator, since the class contains whitespace. -/
def pat2Tail : List Char → Option (List Char)
  | [] => none
  | c :: cs =>
    if isPySpace c then
      match pat2Tail cs with
      | some g => some g
      | none => mTail cs
    else if isSepChar c then mTail cs
    else none

/-- Model of `parse_track_from_title`: strip the input, then try
`^\s*(\d+)\s+(.+)$` and `^\s*(\d+)\s*[-.\s]\s*(.+)$` in order; on a match
return the parsed integer and the stripped remainder group, otherwise
`(None, stripped input)`.  After the greedy `\s*`, the `(\d+)` group is the
maximal digit run, and the stripped `(.+)` group is computed by the tail
functions. -/
def parse_track_from_title (track_title : List Char) : Option Nat × List Char :=
  if track_title.isEmpty then (none, [])
  else
    let s := pyStrip track_title
    let l1 := s.dropWhile isPySpace
    let d := l1.takeWhile isPyDigit
    let r2 := l1.dropWhile isPyDigit
    if d.isEmpty then (none, s)
    else
      match pat1Tail r2 with
      | some g => (some (digitsToNat d), pyStrip g)
      | none =>
        match pat2Tail r2 with
        | some g => (some (digitsToNat d), pyStrip g)
        | none => (none, s)

/-- Literal `(Live in` of LIVE_IN_REGEX, lower-cased for the IGNORECASE flag. -/
def liveLit : List Char := ['(', 'l', 'i', 'v', 'e', ' ', 'i', 'n']

/-- Case-insensitive literal match; returns the input after the literal. -/
def matchLit : List Char → List Char → Option (List Char)
  | [], l => some l
  | _ :: _, [] => none
  | p :: ps, x :: xs => if x.toLower = p then matchLit ps xs else none

/-- Model of the lazy `.*?\)`: scan to the first close paren, failing on a
newline (which `.` cannot match). -/
def findClose : List Char → Option (List Char)
  | [] => none
  | c :: cs => if c = ')' then some cs else if c = '\n' then none else findClose cs

/-- Attempt to match LIVE_IN_REGEX, `\s*\(Live in.*?\)` (IGNORECASE), at the
start of `l`; returns the remaining input after the match.  The greedy `\s*`
is forced maximal because `(` is not whitespace. -/
def matchLiveAt (l : List Char) : Option (List Char) :=
  match matchLit liveLit (l.dropWhile isPySpace) with
  | some rest => findClose rest
  | none => none

/-- Fuelled scan of `re.sub(LIVE_IN_REGEX, "", text)`: at each position try a
match (deleting it and resuming after its end, without rescanning the spliced
seam, exactly as `re.sub` does) else keep the character.  Every step consumes
at least one character, so fuel equal to the length is always sufficient. -/
def subLiveF : Nat → List Char → List Char
  | 0, l => l
  | _ + 1, [] => []
  | fuel + 1, c :: cs =>
    match matchLiveAt (c :: cs) with
    | some rest => subLiveF fuel rest
    | none => c :: subLiveF fuel cs

/-- Model of `LIVE_IN_REGEX.sub("", l)`. -/
def subLive (l : List Char) : List Char := subLiveF l.length l

/-- Predicate: LIVE_IN_REGEX matches somewhere in `l`. -/
def hasLive : List Char → Bool
  | [] => false
  | c :: cs => (matchLiveAt (c :: cs)).isSome || hasLive cs

/-- Model of `clean_live_in`: empty input passes through, otherwise delete
every regex match and strip the result. -/
def clean_live_in (text : List Char) : List Char :=
  if text.isEmpty then text else pyStrip (subLive text)

/-- Characters forbidden in Windows path segments, the class of
`sanitize_filename`. -/
def isForbidden (c : Char) : Bool :=
  ['\\', '/', ':', '*', '?', '"', '<', '>', '|'].contains c

/-- Model of `sanitize_filename`: replace each forbidden character by an
underscore. -/
def sanitize_filename (name : List Char) : List Char :=
  name.map (fun c => if isForbidden c then '_' else c)

/-- Source text selected by `get_track_info_from_tags_or_filename`: the title
tag when present and non-empty (Python `if not title_tag`), else the filename
stem. -/
def effective_source (title_tag : Option (List Char)) (stem : List Char) : List Char :=
  match title_tag with
  | some t => if t.isEmpty then stem else t
  | none => stem

/-- Test whether the list starts with the literal separator `" - "`. -/
def startsWithSep : List Char → Bool
  | ' ' :: '-' :: ' ' :: _ => true
  | _ => false

/-- Model of Python `" - " in l`. -/
def containsSep : List Char → Bool
  | [] => false
  | c :: cs => startsWithSep (c :: cs) || containsSep cs

/-- Suffix after the last occurrence of `" - "`, when one exists. -/
def afterLastSepAux : List Char → Option (List Char)
  | [] => none
  | c :: cs =>
    match afterLastSepAux cs with
    | some r => some r
    | none => if startsWithSep (c :: cs) then some (cs.drop 2) else none

/-- Model of `l.rsplit(" - ", 1)[-1]`: the text after the last `" - "`, or
the whole string when the separator does not occur. -/
def afterLastSep (l : List Char) : List Char := (afterLastSepAux l).getD l

/-- Model of `get_track_info_from_tags_or_filename`: parse the cleaned source
text; when no track number results, retry on the segment of the cleaned stem
after the last `" - "`, preferring a number found there. -/
def get_track_info_from_tags_or_filename
    (title_tag : Option (List Char)) (stem : List Char) : Option Nat × List Char :=
  let r := parse_track_from_title (clean_live_in (effective_source title_tag stem))
  if r.1.isSome then r
  else
    let stem_clean := clean_live_in stem
    if containsSep stem_clean then
      let fr := parse_track_from_title (afterLastSep stem_clean)
      if fr.1.isSome then fr else r
    else r

/-- Running sums of the per-date track counts, modelling the `cumulative`
list built in `main`. -/
def cumAux : Nat → List Nat → List Nat
  | _, [] => []
  | run, c :: cs => (run + c) :: cumAux (run + c) cs

/-- Cumulative boundaries `cumulative` from the setlist lengths. -/
def cumulativeSums (counts : List Nat) : List Nat := cumAux 0 counts

/-- Model of `track_counts` with the all-empty fallback in `main`: when no
setlist has songs, every file is counted on disc 1. -/
def track_counts_with_fallback (counts : List Nat) (numFiles : Nat) : List Nat :=
  if counts.all (· = 0) then numFiles :: List.replicate (counts.length - 1) 0
  else counts

/-- Search of the loop in `get_disc_for_index`: the index of the first
cumulative boundary strictly greater than `idx`, if any. -/
def discSearch : List Nat → Nat → Option Nat
  | [], _ => none
  | b :: bs, idx => if idx < b then some 0 else (discSearch bs idx).map (· + 1)

/-- Model of `get_disc_for_index`: first disc whose cumulative boundary
exceeds the file index, defaulting to the last disc (`len(date_list) - 1`). -/
def get_disc_for_index (cumulative : List Nat) (numDates : Nat) (idx : Nat) : Nat :=
  match discSearch cumulative idx with
  | some j => j
  | none => numDates - 1

/-- Observable filesystem or metadata mutations performed by the run. -/
inductive Effect where
  | metadataSave : Nat → Effect
  | fileRename : Nat → Effect
  | folderRename : Effect
deriving DecidableEq

/-- Outcome of `tag_with_mutagen` for one file, abstracting the environment:
skipped as non-audio, unreadable, or tagged (with or without a rename, the
rename happening only when the target name is new and differs). -/
inductive FileOutcome where
  | notAudio : FileOutcome
  | unreadable : FileOutcome
  | tagged : Bool → FileOutcome
deriving DecidableEq

/-- Mutations of `tag_with_mutagen` on the file at index `i`: skipped or
unreadable files are untouched; otherwise the tags are saved and the file is
possibly renamed. -/
def tag_file_effects (i : Nat) : FileOutcome → List Effect
  | FileOutcome.notAudio => []
  | FileOutcome.unreadable => []
  | FileOutcome.tagged doRename =>
    Effect.metadataSave i :: (if doRename then [Effect.fileRename i] else [])

/-- Mutations of the post-confirmation phase of `main`: per-file tagging and
renaming in order, then the folder rename when no folder of the target name
exists. -/
def run_after_confirm (outcomes : List FileOutcome) (folderRenameOk : Bool) : List Effect :=
  (outcomes.enum.flatMap fun p => tag_file_effects p.1 p.2) ++
    (if folderRenameOk then [Effect.folderRename] else [])

/-- Model of `.lower()` on the confirmation response. -/
def pyLower (l : List Char) : List Char := l.map Char.toLower

/-- Model of the mutation trace of `main` from the confirmation prompt on:
`input().strip().lower()` is compared with `"y"`, and every mutation is
performed after that gate, none before. -/
def main_effects (confirm : List Char) (outcomes : List FileOutcome)
    (folderRenameOk : Bool) : List Effect :=
  if pyLower (pyStrip confirm) = ['y'] then run_after_confirm outcomes folderRenameOk
  else []

/-- Separator class `[-.\s]` of the second pattern: whitespace, hyphen or dot. -/
def isSepClass (c : Char) : Bool := isPySpace c || isSepChar c

/-! Helper lemmas about the text primitives. -/

lemma dropWhile_dropWhile (p : Char → Bool) (l : List Char) :
    (l.dropWhile p).dropWhile p = l.dropWhile p := by
  induction l with
  | nil => rfl
  | cons c cs ih =>
    by_cases hc : p c
    · simp only [List.dropWhile_cons, hc, if_true]
      exact ih
    · simp only [List.dropWhile_cons, hc, if_false]
      simp [List.dropWhile_cons, hc]

lemma head?_stripLeft (l : List Char) (c : Char) (h : (stripLeft l).head? = some c) :
    isPySpace c = false := by
  induction l with
  | nil => simp [stripLeft] at h
  | cons a as ih =>
    by_cases ha : isPySpace a
    · exact ih (by simpa [stripLeft, List.dropWhile_cons, ha] using h)
    · have : a = c := by simpa [stripLeft, List.dropWhile_cons, ha] using h
      rw [← this]
      simpa using ha

lemma stripLeft_eq_self_of (l : List Char)
    (h : ∀ c, l.head? = some c → isPySpace c = false) : stripLeft l = l := by
  cases l with
  | nil => rfl
  | cons a as => simp [stripLeft, List.dropWhile_cons, h a rfl]

lemma stripRight_append (l : List Char) :
    stripRight l ++ (l.reverse.takeWhile isPySpace).reverse = l := by
  unfold stripRight
  rw [← List.reverse_append, List.takeWhile_append_dropWhile, List.reverse_reverse]

lemma head?_of_append_eq (xs t l : List Char) (hxs : xs ++ t = l) (hne : xs ≠ []) :
    l.head? = xs.head? := by
  cases xs with
  | nil => exact absurd rfl hne
  | cons a as => rw [← hxs]; rfl

lemma stripLeft_stripRight_stripLeft (l : List Char) :
    stripLeft (stripRight (stripLeft l)) = stripRight (stripLeft l) := by
  apply stripLeft_eq_self_of
  intro c hc
  have hne : stripRight (stripLeft l) ≠ [] := by
    intro h0
    rw [h0] at hc
    simp at hc
  have hh := head?_of_append_eq _ _ _ (stripRight_append (stripLeft l)) hne
  exact head?_stripLeft l c (hh ▸ hc)

lemma stripRight_stripRight (l : List Char) : stripRight (stripRight l) = stripRight l := by
  unfold stripRight
  rw [List.reverse_reverse, dropWhile_dropWhile]

lemma pyStrip_idem (l : List Char) : pyStrip (pyStrip l) = pyStrip l := by
  show stripRight (stripLeft (stripRight (stripLeft l))) = stripRight (stripLeft l)
  rw [stripLeft_stripRight_stripLeft, stripRight_stripRight]

lemma stripLeft_pyStrip (l : List Char) :
    (pyStrip l).dropWhile isPySpace = pyStrip l := by
  apply stripLeft_eq_self_of
  intro c hc
  have hne : pyStrip l ≠ [] := by
    intro h0
    rw [h0] at hc
    simp at hc
  have hh := head?_of_append_eq _ _ _ (stripRight_append (stripLeft l)) hne
  exact head?_stripLeft l c (hh ▸ hc)

lemma dropWhile_eq_self_of_all (p : Char → Bool) (l : List Char)
    (h : ∀ c ∈ l, p c = false) : l.dropWhile p = l := by
  cases l with
  | nil => rfl
  | cons a as => simp [List.dropWhile_cons, h a (by simp)]

lemma takeWhile_eq_self_of_all (p : Char → Bool) (l : List Char)
    (h : ∀ c ∈ l, p c = true) : l.takeWhile p = l := by
  induction l with
  | nil => rfl
  | cons a as ih =>
    simp only [List.takeWhile_cons, h a (by simp), if_true]
    rw [ih (fun c hc => h c (by simp [hc]))]

lemma dropWhile_eq_nil_of_all (p : Char → Bool) (l : List Char)
    (h : ∀ c ∈ l, p c = true) : l.dropWhile p = [] := by
  induction l with
  | nil => rfl
  | cons a as ih =>
    simp only [List.dropWhile_cons, h a (by simp), if_true]
    exact ih (fun c hc => h c (by simp [hc]))

lemma pyStrip_eq_self_of_no_space (l : List Char)
    (h : ∀ c ∈ l, isPySpace c = false) : pyStrip l = l := by
  show stripRight (stripLeft l) = l
  unfold stripLeft stripRight
  rw [dropWhile_eq_self_of_all isPySpace l h,
    dropWhile_eq_self_of_all isPySpace l.reverse
      (fun c hc => h c (List.mem_reverse.mp hc)),
    List.reverse_reverse]

lemma digit_not_space (c : Char) (h : isPyDigit c = true) : isPySpace c = false := by
  have h' : 48 ≤ c.toNat ∧ c.toNat ≤ 57 := by simpa [isPyDigit] using h
  rw [isPySpace, Bool.eq_false_iff]
  intro hc
  have hm : c.toNat ∈ pySpaceNats := by simpa using hc
  simp only [pySpaceNats, List.mem_cons, List.not_mem_nil, or_false] at hm
  omega

lemma parse_digits_only (u : List Char) (hne : u ≠ []) (hd : u.all isPyDigit = true) :
    parse_track_from_title u = (none, u) := by
  have hAll : ∀ c ∈ u, isPyDigit c = true := List.all_eq_true.mp hd
  have hNoSp : ∀ c ∈ u, isPySpace c = false := fun c hc => digit_not_space c (hAll c hc)
  have hE : u.isEmpty = false := by
    cases u with
    | nil => exact absurd rfl hne
    | cons a as => rfl
  rw [parse_track_from_title]
  rw [hE]
  simp only [Bool.false_eq_true, if_false,
    pyStrip_eq_self_of_no_space u hNoSp,
    dropWhile_eq_self_of_all isPySpace u hNoSp,
    takeWhile_eq_self_of_all isPyDigit u hAll,
    dropWhile_eq_nil_of_all isPyDigit u hAll,
    hE]
  simp [pat1Tail, pat2Tail]

lemma subLiveF_of_no_live : ∀ (fuel : Nat) (l : List Char), hasLive l = false →
    subLiveF fuel l = l := by
  intro fuel
  induction fuel with
  | zero => intro l _; rfl
  | succ f ih =>
    intro l hnl
    cases l with
    | nil => rfl
    | cons c cs =>
      rw [hasLive, Bool.or_eq_false_iff] at hnl
      have hm : matchLiveAt (c :: cs) = none := by
        cases hmm : matchLiveAt (c :: cs) with
        | none => rfl
        | some r => rw [hmm] at hnl; simp at hnl
      rw [subLiveF, hm]
      rw [ih cs hnl.2]

lemma subLive_of_no_live (l : List Char) (h : hasLive l = false) : subLive l = l :=
  subLiveF_of_no_live l.length l h

/-! Helper lemmas about the disc search. -/

lemma discSearch_first : ∀ (cum : List Nat) (idx j : Nat), j < cum.length →
    idx < cum.getD j 0 → (∀ k, k < j → cum.getD k 0 ≤ idx) →
    discSearch cum idx = some j := by
  intro cum
  induction cum with
  | nil => intro idx j hj; simp at hj
  | cons b bs ih =>
    intro idx j hj hlt hbefore
    cases j with
    | zero =>
      have hb : idx < b := by simpa using hlt
      simp [discSearch, hb]
    | succ j' =>
      have hb : b ≤ idx := by simpa using hbefore 0 (Nat.succ_pos _)
      rw [discSearch, if_neg (Nat.not_lt.mpr hb)]
      rw [ih idx j' (Nat.lt_of_succ_lt_succ hj) (by simpa using hlt)
        (fun k hk => by simpa using hbefore (k + 1) (Nat.succ_lt_succ hk))]
      rfl

lemma discSearch_none : ∀ (cum : List Nat) (idx : Nat),
    (∀ k, k < cum.length → cum.getD k 0 ≤ idx) → discSearch cum idx = none := by
  intro cum
  induction cum with
  | nil => intro idx _; rfl
  | cons b bs ih =>
    intro idx hall
    have hb : b ≤ idx := by simpa using hall 0 (Nat.succ_pos _)
    rw [discSearch, if_neg (Nat.not_lt.mpr hb)]
    rw [ih idx (fun k hk => by simpa using hall (k + 1) (Nat.succ_lt_succ hk))]
    rfl

/-! Decomposition lemmas for the regex tails: a successful match splits the
input as whitespace-and-separator material, then the captured group, then an
optional final newline. -/

lemma eq_dropLast_concat_of_getLast (v : List Char) (c : Char)
    (h : v.getLast? = some c) : v = v.dropLast ++ [c] := by
  cases hv : v.reverse with
  | nil =>
    have : v = [] := by simpa using congrArg List.reverse hv
    rw [this] at h
    simp at h
  | cons a as =>
    have hv2 : v = as.reverse ++ [a] := by
      have := congrArg List.reverse hv
      simpa using this
    rw [hv2] at h ⊢
    rw [List.getLast?_concat] at h
    have ha : a = c := by injection h
    rw [List.dropLast_concat, ha]

lemma coreGroup_eq_some (v g : List Char) (h : coreGroup v = some g) :
    (v = g ∨ v = g ++ ['\n']) ∧ g ≠ [] := by
  rw [coreGroup] at h
  by_cases h1 : (chopNL v).isEmpty
  · rw [if_pos h1] at h; simp at h
  · rw [if_neg h1] at h
    by_cases h2 : (chopNL v).contains '\n'
    · rw [if_pos h2] at h; simp at h
    · rw [if_neg h2] at h
      have hg : g = chopNL v := by injection h with h'; rw [h']
      have hgne : g ≠ [] := by
        rw [hg]
        intro h0
        rw [h0] at h1
        exact h1 rfl
      refine ⟨?_, hgne⟩
      rw [chopNL] at hg
      by_cases hl : v.getLast? = some '\n'
      · right
        rw [if_pos hl] at hg
        rw [hg]
        exact eq_dropLast_concat_of_getLast v '\n' hl
      · left
        rw [if_neg hl] at hg
        rw [hg]

lemma mTail_eq_some : ∀ (v g : List Char), mTail v = some g →
    ∃ w tl, v = w ++ g ++ tl ∧ w.all isPySpace = true ∧ g ≠ [] ∧
      (tl = [] ∨ tl = ['\n']) := by
  intro v
  induction v with
  | nil => intro g h; simp [mTail] at h
  | cons c cs ih =>
    intro g h
    have hcore : coreGroup (c :: cs) = some g →
        ∃ w tl, c :: cs = w ++ g ++ tl ∧ w.all isPySpace = true ∧ g ≠ [] ∧
          (tl = [] ∨ tl = ['\n']) := by
      intro hc
      obtain ⟨hsplit, hgne⟩ := coreGroup_eq_some _ _ hc
      cases hsplit with
      | inl h1 => exact ⟨[], [], by simp [h1], rfl, hgne, Or.inl rfl⟩
      | inr h1 => exact ⟨[], ['\n'], by simp [h1], rfl, hgne, Or.inr rfl⟩
    rw [mTail] at h
    by_cases hc : isPySpace c
    · rw [if_pos hc] at h
      cases hm : mTail cs with
      | some g' =>
        rw [hm] at h
        have hgg : g' = g := by injection h
        obtain ⟨w, tl, hsplit, hw, hgne, htl⟩ := ih g' hm
        rw [hgg] at hsplit hgne
        exact ⟨c :: w, tl, by rw [hsplit]; rfl, by simp [hc, hw], hgne, htl⟩
      | none =>
        rw [hm] at h
        exact hcore h
    · rw [if_neg hc] at h
      exact hcore h

lemma pat1Tail_eq_some (v g : List Char) (h : pat1Tail v = some g) :
    ∃ sep tl, v = sep ++ g ++ tl ∧ sep ≠ [] ∧ sep.all isPySpace = true ∧ g ≠ [] ∧
      (tl = [] ∨ tl = ['\n']) := by
  cases v with
  | nil => simp [pat1Tail] at h
  | cons c cs =>
    rw [pat1Tail] at h
    by_cases hc : isPySpace c
    · rw [if_pos hc] at h
      obtain ⟨w, tl, hsplit, hw, hgne, htl⟩ := mTail_eq_some cs g h
      exact ⟨c :: w, tl, by rw [hsplit]; rfl, by simp,
        by simp [hc, hw], hgne, htl⟩
    · rw [if_neg hc] at h
      simp at h

lemma all_sepClass_of_all_space (w : List Char) (h : w.all isPySpace = true) :
    w.all isSepClass = true := by
  rw [List.all_eq_true] at h ⊢
  intro c hc
  simp [isSepClass, h c hc]

lemma pat2Tail_eq_some : ∀ (v g : List Char), pat2Tail v = some g →
    ∃ sep tl, v = sep ++ g ++ tl ∧ sep ≠ [] ∧ sep.all isSepClass = true ∧ g ≠ [] ∧
      (tl = [] ∨ tl = ['\n']) := by
  intro v
  induction v with
  | nil => intro g h; simp [pat2Tail] at h
  | cons c cs ih =>
    intro g h
    have hmt : isSepClass c = true → mTail cs = some g →
        ∃ sep tl, c :: cs = sep ++ g ++ tl ∧ sep ≠ [] ∧ sep.all isSepClass = true ∧
          g ≠ [] ∧ (tl = [] ∨ tl = ['\n']) := by
      intro hcls hm
      obtain ⟨w, tl, hsplit, hw, hgne, htl⟩ := mTail_eq_some cs g hm
      refine ⟨c :: w, tl, by rw [hsplit]; rfl, by simp, ?_, hgne, htl⟩
      have hwc := all_sepClass_of_all_space w hw
      simp [hcls, hwc]
    rw [pat2Tail] at h
    by_cases hc : isPySpace c
    · rw [if_pos hc] at h
      cases hm : pat2Tail cs with
      | some g' =>
        rw [hm] at h
        have hgg : g' = g := by injection h
        obtain ⟨sep, tl, hsplit, hsne, hsep, hgne, htl⟩ := ih g' hm
        rw [hgg] at hsplit hgne
        exact ⟨c :: sep, tl, by rw [hsplit]; rfl, by simp,
          by simp [isSepClass, hc, hsep], hgne, htl⟩
      | none =>
        rw [hm] at h
        exact hmt (by simp [isSepClass, hc]) h
    · rw [if_neg hc] at h
      by_cases hs : isSepChar c
      · rw [if_pos hs] at h
        exact hmt (by simp [isSepClass, hs]) h
      · rw [if_neg hs] at h
        simp at h

lemma all_takeWhile (p : Char → Bool) (l : List Char) : (l.takeWhile p).all p = true := by
  induction l with
  | nil => rfl
  | cons a as ih =>
    by_cases ha : p a
    · simp [List.takeWhile_cons, ha, ih]
    · simp [List.takeWhile_cons, ha]

/-- Central decomposition: a successful numeric-prefix parse splits the
stripped source into a nonempty digit token, a nonempty separator run from
the class whitespace-hyphen-dot, the captured remainder (whose strip is the
returned title), and an optional final newline. -/
lemma parse_some (u : List Char) (n : Nat) (title : List Char)
    (h : parse_track_from_title u = (some n, title)) :
    ∃ d sep core tl,
      pyStrip u = d ++ sep ++ core ++ tl ∧
      d ≠ [] ∧ d.all isPyDigit = true ∧ n = digitsToNat d ∧
      sep ≠ [] ∧ sep.all isSepClass = true ∧
      core ≠ [] ∧ title = pyStrip core ∧ (tl = [] ∨ tl = ['\n']) := by
  by_cases hE : u.isEmpty
  · rw [parse_track_from_title, if_pos hE] at h
    exact absurd (congrArg Prod.fst h) (by simp)
  · rw [parse_track_from_title, if_neg hE] at h
    simp only [stripLeft_pyStrip] at h
    set d := (pyStrip u).takeWhile isPyDigit with hd
    set r2 := (pyStrip u).dropWhile isPyDigit with hr2
    by_cases hdE : d.isEmpty
    · rw [if_pos hdE] at h
      exact absurd (congrArg Prod.fst h) (by simp)
    · rw [if_neg hdE] at h
      have hdne : d ≠ [] := by
        intro h0
        rw [h0] at hdE
        exact hdE rfl
      have hdall : d.all isPyDigit = true := by rw [hd]; exact all_takeWhile _ _
      have hsplit0 : d ++ r2 = pyStrip u := by
        rw [hd, hr2]; exact List.takeWhile_append_dropWhile _ _
      cases hp1 : pat1Tail r2 with
      | some g =>
        rw [hp1] at h
        have hn : n = digitsToNat d := by
          have h1 := congrArg Prod.fst h
          simp at h1
          exact h1.symm
        have ht : title = pyStrip g := by
          have h2 := congrArg Prod.snd h
          simp at h2
          exact h2.symm
        obtain ⟨sep, tl, hr2split, hsne, hsall, hgne, htl⟩ := pat1Tail_eq_some r2 g hp1
        refine ⟨d, sep, g, tl, ?_, hdne, hdall, hn, hsne,
          all_sepClass_of_all_space sep hsall, hgne, ht, htl⟩
        rw [← hsplit0, hr2split]
        simp [List.append_assoc]
      | none =>
        rw [hp1] at h
        cases hp2 : pat2Tail r2 with
        | some g =>
          rw [hp2] at h
          have hn : n = digitsToNat d := by
            have h1 := congrArg Prod.fst h
            simp at h1
            exact h1.symm
          have ht : title = pyStrip g := by
            have h2 := congrArg Prod.snd h
            simp at h2
            exact h2.symm
          obtain ⟨sep, tl, hr2split, hsne, hsall, hgne, htl⟩ := pat2Tail_eq_some r2 g hp2
          refine ⟨d, sep, g, tl, ?_, hdne, hdall, hn, hsne, hsall, hgne, ht, htl⟩
          rw [← hsplit0, hr2split]
          simp [List.append_assoc]
        | none =>
          rw [hp2] at h
          exact absurd (congrArg Prod.fst h) (by simp)

/-! Claim theorems. -/

/-- C1: evaluation of the resolver at the three spec examples.  The first and
third agree with the claim, but on the source text `"07 - Extinction"` the
first regex `^\s*(\d+)\s+(.+)$` already matches (its `\s+` eats only the
space before the hyphen), so the title keeps the separator: the code returns
`(7, "- Extinction")` where the claim requires `(7, "Extinction")`. -/
theorem C1_numeric_prefix_examples :
    get_track_info_from_tags_or_filename (some (("07 Extinction").data)) (("x").data)
        = (some 7, ("Extinction").data)
  ∧ get_track_info_from_tags_or_filename (some (("7. Extinction").data)) (("x").data)
        = (some 7, ("Extinction").data)
  ∧ get_track_info_from_tags_or_filename (some (("07 - Extinction").data)) (("x").data)
        = (some 7, ("- Extinction").data) :=
  ⟨by decide, by decide, by decide⟩

/-- C2: when the tag is present but yields no track number and the cleaned
stem contains `" - "`, the resolver returns the parse of the segment after
the last `" - "` whenever that parse finds a number, overriding the
tag-derived title. -/
theorem C2_filename_fallback (tag stem : List Char) (n : Nat) (t : List Char)
    (htag : tag ≠ [])
    (hno : (parse_track_from_title (clean_live_in tag)).1 = none)
    (hsep : containsSep (clean_live_in stem) = true)
    (hfn : parse_track_from_title (afterLastSep (clean_live_in stem)) = (some n, t)) :
    get_track_info_from_tags_or_filename (some tag) stem = (some n, t) := by
  have hts : tag.isEmpty = false := by
    cases tag with
    | nil => exact absurd rfl htag
    | cons a as => rfl
  rw [get_track_info_from_tags_or_filename]
  simp [effective_source, hts, hno, hsep, hfn]

/-- C2 witness: the spec example, tag `"Extinction"` and stem
`"Set1 - 07 Extinction"` resolve to `(7, "Extinction")`. -/
theorem C2_witness :
    get_track_info_from_tags_or_filename (some (("Extinction").data))
      (("Set1 - 07 Extinction").data) = (some 7, ("Extinction").data) :=
  C2_filename_fallback (("Extinction").data) (("Set1 - 07 Extinction").data) 7
    (("Extinction").data) (by decide) (by decide) (by decide) (by decide)

/-- C3 counterexample: `re.sub` does not rescan the spliced seam, so removing
`"(Live in x)"` from `"(L(Live in x)ive in y)"` creates the fresh match
`"(Live in y)"`, which only a second application removes: cleaning is not
idempotent on this input. -/
theorem C3_clean_idempotent_counterexample :
    clean_live_in (clean_live_in (("(L(Live in x)ive in y)").data))
      ≠ clean_live_in (("(L(Live in x)ive in y)").data) := by decide

/-- C3 (amended): cleaning is idempotent on every input whose cleaned result
contains no remaining match of the live-in pattern; deletion can splice a new
match together, and exactly then a second clean removes more. -/
theorem C3_clean_idempotent_when_no_new_match (t : List Char)
    (h : hasLive (clean_live_in t) = false) :
    clean_live_in (clean_live_in t) = clean_live_in t := by
  by_cases hT : t.isEmpty
  · have h0 : t = [] := by
      cases t with
      | nil => rfl
      | cons a as => simp at hT
    rw [h0]
    decide
  · have hu : clean_live_in t = pyStrip (subLive t) := by
      rw [clean_live_in, if_neg hT]
    by_cases hE : (clean_live_in t).isEmpty
    · have h0 : clean_live_in t = [] := by
        cases hcc : clean_live_in t with
        | nil => rfl
        | cons a as => rw [hcc] at hE; simp at hE
      rw [h0]
      decide
    · rw [clean_live_in, if_neg hE]
      rw [subLive_of_no_live _ h]
      rw [hu]
      exact pyStrip_idem _

/-- C3 witness: on `"a (Live in X) b"` the cleaned text has no further match
and cleaning twice equals cleaning once. -/
theorem C3_witness :
    hasLive (clean_live_in (("a (Live in X) b").data)) = false ∧
    clean_live_in (clean_live_in (("a (Live in X) b").data))
      = clean_live_in (("a (Live in X) b").data) :=
  ⟨by decide, C3_clean_idempotent_when_no_new_match _ (by decide)⟩

/-- C4 counterexample: the cleaned source `"07"` consists only of digits, yet
the resolver returns the digits themselves as title, not an empty title —
neither regex matches without a remainder, so `parse_track_from_title` falls
through to `(None, s)`. -/
theorem C4_digits_only_counterexample :
    (("07").data).all isPyDigit = true ∧
    clean_live_in (("07").data) = ("07").data ∧
    (get_track_info_from_tags_or_filename (some (("07").data)) (("xy").data)).2
      = ("07").data ∧
    ("07").data ≠ ([] : List Char) :=
  ⟨by decide, by decide, by decide, by decide⟩

/-- C4 (amended): a cleaned source text consisting only of digits yields no
track number and the digit string itself, unchanged, as the title (when the
filename fallback does not fire). -/
theorem C4_digits_only_keeps_digits (tag stem : List Char)
    (h1 : tag ≠ []) (h2 : clean_live_in tag ≠ [])
    (h3 : (clean_live_in tag).all isPyDigit = true)
    (h4 : containsSep (clean_live_in stem) = false) :
    get_track_info_from_tags_or_filename (some tag) stem = (none, clean_live_in tag) := by
  have hts : tag.isEmpty = false := by
    cases tag with
    | nil => exact absurd rfl h1
    | cons a as => rfl
  have hp := parse_digits_only (clean_live_in tag) h2 h3
  rw [get_track_info_from_tags_or_filename]
  simp [effective_source, hts, hp, h4]

/-- C4 witness: tag `"07"`, stem `"xy"` resolve to no track number with the
digits kept as title. -/
theorem C4_witness :
    get_track_info_from_tags_or_filename (some (("07").data)) (("xy").data)
      = (none, clean_live_in (("07").data)) :=
  C4_digits_only_keeps_digits (("07").data) (("xy").data) (by decide) (by decide)
    (by decide) (by decide)

/-- C5 counterexample: the source text `"0 Intro"` parses to track number 0,
which is not a positive integer, refuting the positivity part of the claim. -/
theorem C5_track_number_counterexample :
    get_track_info_from_tags_or_filename (some (("0 Intro").data)) (("x").data)
      = (some 0, ("Intro").data) ∧ ¬ 0 < 0 :=
  ⟨by decide, by decide⟩

/-- C5 (amended): whenever the resolver returns a track number, it is a
natural number (possibly zero) read from the leading digit token of the text
that was parsed — the cleaned source text or the filename-fallback segment —
and the returned title is the stripped remainder after that token and its
separator run, so it retains neither. -/
theorem C5_track_from_leading_token (tag : Option (List Char)) (stem : List Char)
    (n : Nat) (title : List Char)
    (h : get_track_info_from_tags_or_filename tag stem = (some n, title)) :
    ∃ src d sep core tl,
      (src = clean_live_in (effective_source tag stem) ∨
        src = afterLastSep (clean_live_in stem)) ∧
      parse_track_from_title src = (some n, title) ∧
      pyStrip src = d ++ sep ++ core ++ tl ∧
      d ≠ [] ∧ d.all isPyDigit = true ∧ n = digitsToNat d ∧
      sep ≠ [] ∧ sep.all isSepClass = true ∧
      core ≠ [] ∧ title = pyStrip core ∧ (tl = [] ∨ tl = ['\n']) := by
  have main : ∀ src : List Char,
      (src = clean_live_in (effective_source tag stem) ∨
        src = afterLastSep (clean_live_in stem)) →
      parse_track_from_title src = (some n, title) →
      ∃ src' d sep core tl,
        (src' = clean_live_in (effective_source tag stem) ∨
          src' = afterLastSep (clean_live_in stem)) ∧
        parse_track_from_title src' = (some n, title) ∧
        pyStrip src' = d ++ sep ++ core ++ tl ∧
        d ≠ [] ∧ d.all isPyDigit = true ∧ n = digitsToNat d ∧
        sep ≠ [] ∧ sep.all isSepClass = true ∧
        core ≠ [] ∧ title = pyStrip core ∧ (tl = [] ∨ tl = ['\n']) := by
    intro src hsrc hp
    obtain ⟨d, sep, core, tl, hsp, hdne, hdall, hn, hsne, hsall, hcne, ht, htl⟩ :=
      parse_some src n title hp
    exact ⟨src, d, sep, core, tl, hsrc, hp, hsp, hdne, hdall, hn, hsne, hsall,
      hcne, ht, htl⟩
  simp only [get_track_info_from_tags_or_filename] at h
  by_cases h1 : (parse_track_from_title (clean_live_in (effective_source tag stem))).1.isSome
  · rw [if_pos h1] at h
    exact main _ (Or.inl rfl) h
  · rw [if_neg h1] at h
    by_cases h2 : containsSep (clean_live_in stem)
    · rw [if_pos h2] at h
      by_cases h3 : (parse_track_from_title (afterLastSep (clean_live_in stem))).1.isSome
      · rw [if_pos h3] at h
        exact main _ (Or.inr rfl) h
      · rw [if_neg h3] at h
        exact absurd (by rw [h]; rfl) h1
    · rw [if_neg h2] at h
      exact absurd (by rw [h]; rfl) h1

/-- C5 witness: instantiation at the tag `"07 Extinction"`. -/
theorem C5_witness :
    ∃ src d sep core tl,
      (src = clean_live_in (effective_source (some (("07 Extinction").data)) (("x").data)) ∨
        src = afterLastSep (clean_live_in (("x").data))) ∧
      parse_track_from_title src = (some 7, ("Extinction").data) ∧
      pyStrip src = d ++ sep ++ core ++ tl ∧
      d ≠ [] ∧ d.all isPyDigit = true ∧ 7 = digitsToNat d ∧
      sep ≠ [] ∧ sep.all isSepClass = true ∧
      core ≠ [] ∧ ("Extinction").data = pyStrip core ∧ (tl = [] ∨ tl = ['\n']) :=
  C5_track_from_leading_token (some (("07 Extinction").data)) (("x").data) 7
    (("Extinction").data) (by decide)

/-- C6: the embedded resolver and cleaner are total functions — the empty
text passes through the cleaner unchanged, and every tag/stem combination
yields a result pair; the translated code paths contain no failing
operation. -/
theorem C6_total :
    clean_live_in [] = [] ∧
    ∀ (tag : Option (List Char)) (stem : List Char),
      ∃ n t, get_track_info_from_tags_or_filename tag stem = (n, t) :=
  ⟨rfl, fun _ _ => ⟨_, _, rfl⟩⟩

/-- C7: the disc for a file index is the first disc whose cumulative boundary
exceeds the index; indices beyond every boundary fall on the last disc; and
for setlist lengths `[3, 2]` with 6 files the 1-based disc numbers are
`[1, 1, 1, 2, 2, 2]`. -/
theorem C7_disc_mapping :
    (∀ (cum : List Nat) (numDates idx j : Nat), j < cum.length →
      idx < cum.getD j 0 → (∀ k, k < j → cum.getD k 0 ≤ idx) →
      get_disc_for_index cum numDates idx = j) ∧
    (∀ (cum : List Nat) (numDates idx : Nat),
      (∀ k, k < cum.length → cum.getD k 0 ≤ idx) →
      get_disc_for_index cum numDates idx = numDates - 1) ∧
    (List.range 6).map (fun i => get_disc_for_index (cumulativeSums [3, 2]) 2 i + 1)
      = [1, 1, 1, 2, 2, 2] := by
  refine ⟨?_, ?_, by decide⟩
  · intro cum numDates idx j hj hlt hbefore
    rw [get_disc_for_index, discSearch_first cum idx j hj hlt hbefore]
  · intro cum numDates idx hall
    rw [get_disc_for_index, discSearch_none cum idx hall]

/-- C7 witness: the overflow index 5 falls on the last disc. -/
theorem C7_witness : get_disc_for_index (cumulativeSums [3, 2]) 2 5 = 2 - 1 := by
  refine C7_disc_mapping.2.1 (cumulativeSums [3, 2]) 2 5 ?_
  intro k hk
  have he : (cumulativeSums [3, 2]).length = 2 := by decide
  rw [he] at hk
  cases k with
  | zero => decide
  | succ k' =>
    cases k' with
    | zero => decide
    | succ k'' => omega

/-- C8: sanitized names contain none of the nine forbidden path characters —
no character of the output passes the forbidden-character test. -/
theorem C8_sanitize_removes_forbidden :
    ∀ s : List Char, (sanitize_filename s).any isForbidden = false := by
  intro s
  induction s with
  | nil => rfl
  | cons a as ih =>
    simp only [sanitize_filename, List.map_cons, List.any_cons] at ih ⊢
    apply Bool.or_eq_false_iff.mpr
    refine ⟨?_, ih⟩
    by_cases hf : isForbidden a
    · rw [if_pos hf]
      decide
    · rw [if_neg hf]
      simp [hf]

/-- C9: a confirmation response that does not normalize to `"y"` produces an
empty mutation trace — no metadata write, no file rename, no folder rename;
all mutations sit after the gate. -/
theorem C9_decline_no_mutation (confirm : List Char) (outcomes : List FileOutcome)
    (folderRenameOk : Bool) (h : pyLower (pyStrip confirm) ≠ ['y']) :
    main_effects confirm outcomes folderRenameOk = [] := by
  rw [main_effects, if_neg h]

/-- C9 witness: answering `"n"` with one taggable file pending yields no
mutation. -/
theorem C9_witness : main_effects (("n").data) [FileOutcome.tagged true] true = [] :=
  C9_decline_no_mutation (("n").data) [FileOutcome.tagged true] true (by decide)

/-- C10: with an absent or empty title tag the stem is the source text, and
when its cleaned form has no leading number but a `" - "`-separated final
segment parses to one, the resolver returns that segment's number and
title. -/
theorem C10_fallback_when_tag_absent (tag : Option (List Char)) (stem : List Char)
    (n : Nat) (t : List Char)
    (htag : tag = none ∨ tag = some [])
    (hno : (parse_track_from_title (clean_live_in stem)).1 = none)
    (hsep : containsSep (clean_live_in stem) = true)
    (hfn : parse_track_from_title (afterLastSep (clean_live_in stem)) = (some n, t)) :
    get_track_info_from_tags_or_filename tag stem = (some n, t) := by
  have heff : effective_source tag stem = stem := by
    cases htag with
    | inl h0 => rw [h0]; rfl
    | inr h0 => rw [h0]; rfl
  rw [get_track_info_from_tags_or_filename]
  simp [heff, hno, hsep, hfn]

/-- C10 witness: no tag and stem `"Set1 - 07 Extinction"` resolve to
`(7, "Extinction")`, not to the cleaned stem with no number. -/
theorem C10_witness :
    get_track_info_from_tags_or_filename none (("Set1 - 07 Extinction").data)
      = (some 7, ("Extinction").data) :=
  C10_fallback_when_tag_absent none (("Set1 - 07 Extinction").data) 7
    (("Extinction").data) (Or.inl rfl) (by decide) (by decide) (by decide)

end TagKglw

